import Mathlib

/-!
Verification of the directed message-passing encoder in
`chemprop/v2/models/modules/message_passing/molecule.py`.

Matrices (torch tensors of rank 2) are embedded as a pair of dimensions
together with a total entry function into the rationals; operations that can
raise a `RuntimeError` in torch (elementwise addition and subtraction on
mismatched shapes, concatenation on mismatched row counts, applying an
`nn.Linear` to an input of the wrong width) are embedded as `Except`-valued
functions.  torch additionally broadcasts dimensions of size 1; in every
operation of this module the two operands either agree in both dimensions or
disagree in a dimension where both sizes exceed 1, so the strict equality
guard models the reachable behaviour.

Dropout (`nn.Dropout`) multiplies each entry by a scale factor: a random
mask scaled by `1/(1-p)` in training mode and identically `1` in evaluation
mode.  It is embedded as elementwise multiplication by an arbitrary given
mask; each invocation of `self.dropout` receives its own mask, indexed by an
invocation counter.

The activation returned by `get_activation_function` (a module whose source
is not part of this repository) is embedded as an arbitrary elementwise
function `tau`, with `relu` as the concrete instance used by witnesses.
-/

namespace Chemprop

/-- Errors a call into this module can surface: `runtimeError` stands for
torch shape errors, `attributeError` for a read of an attribute that was
never assigned, and `invalidShape` for the repository's `InvalidShapeError`
carrying the parameter name, the actual shape, and the expected shape. -/
inductive PyError where
  | runtimeError : PyError
  | attributeError : PyError
  | invalidShape (param : String) (actual : ℕ × ℕ) (expected : ℕ × ℕ) : PyError
deriving DecidableEq

/-- A rank-2 tensor: explicit dimensions and a total entry function. -/
structure Mat where
  rows : ℕ
  cols : ℕ
  entry : ℕ → ℕ → ℚ

/-- A rank-1 integer index tensor, such as `b2a` or `b2revb`. -/
structure IdxVec where
  len : ℕ
  idx : ℕ → ℕ

/-- A rank-2 integer index tensor, such as `a2b` or `a2a`: one fixed-width
(zero-padded) list of indices per row. -/
structure Idx2 where
  rows : ℕ
  width : ℕ
  idx : ℕ → ℕ → ℕ

namespace Mat

/-- Elementwise application of a scalar function (used for the activation). -/
def map (f : ℚ → ℚ) (A : Mat) : Mat :=
  ⟨A.rows, A.cols, fun i j => f (A.entry i j)⟩

/-- Scalar multiplication (used for the `/ 2` of the undirected averaging). -/
def smul (c : ℚ) (A : Mat) : Mat :=
  ⟨A.rows, A.cols, fun i j => c * A.entry i j⟩

/-- Dropout as elementwise multiplication by a mask of scale factors. -/
def drop (m : ℕ → ℕ → ℚ) (A : Mat) : Mat :=
  ⟨A.rows, A.cols, fun i j => m i j * A.entry i j⟩

/-- Row gather `A[I]` through a rank-1 index tensor. -/
def gather (A : Mat) (I : IdxVec) : Mat :=
  ⟨I.len, A.cols, fun i j => A.entry (I.idx i) j⟩

/-- Gather-and-reduce `A[I].sum(1)` through a rank-2 index tensor: the rank-3
gather immediately followed by the sum over its middle dimension. -/
def gatherSum (A : Mat) (I : Idx2) : Mat :=
  ⟨I.rows, A.cols, fun v j =>
    Finset.sum (Finset.range I.width) fun k => A.entry (I.idx v k) j⟩

/-- Elementwise addition, raising torch's shape error on mismatch. -/
def add (A B : Mat) : Except PyError Mat :=
  if A.rows = B.rows ∧ A.cols = B.cols then
    Except.ok ⟨A.rows, A.cols, fun i j => A.entry i j + B.entry i j⟩
  else
    Except.error PyError.runtimeError

/-- Elementwise subtraction, raising torch's shape error on mismatch. -/
def sub (A B : Mat) : Except PyError Mat :=
  if A.rows = B.rows ∧ A.cols = B.cols then
    Except.ok ⟨A.rows, A.cols, fun i j => A.entry i j - B.entry i j⟩
  else
    Except.error PyError.runtimeError

/-- Concatenation along dimension 1 (`torch.cat((A, B), 1)`), raising
torch's shape error when the row counts disagree. -/
def hcat (A B : Mat) : Except PyError Mat :=
  if A.rows = B.rows then
    Except.ok ⟨A.rows, A.cols + B.cols, fun i j =>
      if j < A.cols then A.entry i j else B.entry i (j - A.cols)⟩
  else
    Except.error PyError.runtimeError

/-- The fused gather-concatenate-reduce of the atom-centered variant:
`torch.cat((H[a2a], E[a2b]), 2).sum(1)`.  The concatenation along dimension 2
requires the two gathered rank-3 tensors to agree in their first two
dimensions. -/
def gatherCatSum (H E : Mat) (a2a a2b : Idx2) : Except PyError Mat :=
  if a2a.rows = a2b.rows ∧ a2a.width = a2b.width then
    Except.ok ⟨a2a.rows, H.cols + E.cols, fun v j =>
      Finset.sum (Finset.range a2a.width) fun k =>
        if j < H.cols then H.entry (a2a.idx v k) j
        else E.entry (a2b.idx v k) (j - H.cols)⟩
  else
    Except.error PyError.runtimeError

end Mat

/-- An `nn.Linear(inF, outF, bias)` layer: `weight` is `outF × inF`. -/
structure Linear where
  inF : ℕ
  outF : ℕ
  weight : ℕ → ℕ → ℚ
  bias : ℕ → ℚ

/-- Raw learned parameters from which an `nn.Linear` is initialized. -/
structure LinParams where
  w : ℕ → ℕ → ℚ
  b : ℕ → ℚ

/-- Construct an `nn.Linear`; when `useBias` is false the layer has no bias
term, i.e. its bias vector is identically zero. -/
def mkLinear (inF outF : ℕ) (useBias : Bool) (p : LinParams) : Linear :=
  ⟨inF, outF, p.w, if useBias then p.b else fun _ => 0⟩

/-- Apply a linear layer to every row of a matrix, raising torch's shape
error when the input width disagrees with the layer's `in_features`. -/
def Linear.apply (L : Linear) (A : Mat) : Except PyError Mat :=
  if A.cols = L.inF then
    Except.ok ⟨A.rows, L.outF, fun i o =>
      (Finset.sum (Finset.range L.inF) fun k => L.weight o k * A.entry i k) + L.bias o⟩
  else
    Except.error PyError.runtimeError

/-- The batched graph representation (`BatchMolGraph`), built by an external
featurizer.  Modelled from the spec: the featurizer's source is not part of
this repository, so the fields and their meanings follow the data model of
the spec — `V`/`E` are the vertex/edge feature matrices with an all-zero
sentinel row 0, `a2b` lists for each atom the incoming directed-edge indices
(zero-padded), `b2a` maps each directed edge to its origin atom, `b2revb`
maps each directed edge to its reverse, `a2a` lists each atom's neighbor
atoms (zero-padded), and `nMols` is the separately tracked number of
molecules in the batch. -/
structure BatchMolGraph where
  V : Mat
  E : Mat
  a2b : Idx2
  b2a : IdxVec
  b2revb : IdxVec
  a2a : Idx2
  nMols : ℕ

/-- The state assembled by `MessagePassingBlockBase.__init__`: configuration
together with the learned layers.  `outputDimPriv` is the private
`__output_dim` attribute; `dVd` and `W_vd` are only assigned when a
descriptor dimension is configured. -/
structure Block where
  depth : ℤ
  undirected : Bool
  tau : ℚ → ℚ
  outputDimPriv : ℕ
  dVd : Option ℕ
  W_vd : Option Linear
  W_i : Linear
  W_h : Linear
  W_o : Linear

/-- The public `output_dim` property: `self.W_o.out_features`. -/
def Block.output_dim (blk : Block) : ℕ :=
  blk.W_o.outF

/-- The body of `MessagePassingBlockBase.__init__` shared by both variants,
parameterized by the variant's `setup_weight_matrices` result. -/
def mkBlockWith (d_h : ℕ) (depth : ℤ) (undirected : Bool) (tau : ℚ → ℚ)
    (d_vd : Option ℕ) (pVd : LinParams) (Ws : Linear × Linear × Linear) : Block :=
  { depth := depth
    undirected := undirected
    tau := tau
    outputDimPriv := d_h + d_vd.getD 0
    dVd := d_vd
    W_vd := d_vd.map fun dvd => mkLinear (d_h + dvd) (d_h + dvd) true pVd
    W_i := Ws.1
    W_h := Ws.2.1
    W_o := Ws.2.2 }

/-- `BondMessageBlock.setup_weight_matrices`: `W_i : d_e → d_h`,
`W_h : d_h → d_h` (both with the configured bias flag), and
`W_o : d_v + d_h → d_h` (torch's default bias). -/
def bondWeightMatrices (d_v d_e d_h : ℕ) (bias : Bool)
    (pI pH pO : LinParams) : Linear × Linear × Linear :=
  (mkLinear d_e d_h bias pI, mkLinear d_h d_h bias pH,
   mkLinear (d_v + d_h) d_h true pO)

/-- `AtomMessageBlock.setup_weight_matrices`: `W_i : d_v → d_h`,
`W_h : d_e + d_h → d_h` (both with the configured bias flag), and
`W_o : d_v + d_h → d_h` (torch's default bias). -/
def atomWeightMatrices (d_v d_e d_h : ℕ) (bias : Bool)
    (pI pH pO : LinParams) : Linear × Linear × Linear :=
  (mkLinear d_v d_h bias pI, mkLinear (d_e + d_h) d_h bias pH,
   mkLinear (d_v + d_h) d_h true pO)

/-- Construct a `BondMessageBlock`. -/
def mkBondBlock (d_v d_e d_h : ℕ) (bias : Bool) (depth : ℤ) (undirected : Bool)
    (tau : ℚ → ℚ) (d_vd : Option ℕ) (pI pH pO pVd : LinParams) : Block :=
  mkBlockWith d_h depth undirected tau d_vd pVd
    (bondWeightMatrices d_v d_e d_h bias pI pH pO)

/-- Construct an `AtomMessageBlock`. -/
def mkAtomBlock (d_v d_e d_h : ℕ) (bias : Bool) (depth : ℤ) (undirected : Bool)
    (tau : ℚ → ℚ) (d_vd : Option ℕ) (pI pH pO pVd : LinParams) : Block :=
  mkBlockWith d_h depth undirected tau d_vd pVd
    (atomWeightMatrices d_v d_e d_h bias pI pH pO)

/-- The descriptor branch of `MessagePassingBlockBase.finalize` (the
`if V_d is not None` block, lines 146-152), given the already-computed
`H1 = dropout(tau(W_o(cat(V, M_v))))`: the `try` block computes
`cat(H1, V_d)`, applies `W_vd` and dropout — with no activation in between,
exactly as the source does — and a `RuntimeError` from inside the `try` is
converted into `InvalidShapeError("V_d", V_d.shape, [len(H_v), self.d_vd])`.
Reading `self.W_vd`/`self.d_vd` on a block configured without a descriptor
dimension is an `AttributeError`. -/
def finalizeVd (blk : Block) (m2 : ℕ → ℕ → ℚ) (H1 Vd : Mat) : Except PyError Mat :=
  match blk.W_vd, blk.dVd with
  | some Wvd, some dvd =>
    match (do
      let Hvd ← Mat.hcat H1 Vd
      let H2 ← Wvd.apply Hvd
      pure (Mat.drop m2 H2) : Except PyError Mat) with
    | Except.ok H2 => pure H2
    | Except.error _ =>
      Except.error (PyError.invalidShape ("V_d") (Vd.rows, Vd.cols) (H1.rows, dvd))
  | _, _ => Except.error PyError.attributeError

/-- `MessagePassingBlockBase.finalize(M_v, V, V_d)`: first
`H_v = dropout(tau(W_o(cat(V, M_v))))`, then the descriptor branch
`finalizeVd` when `V_d` is supplied. -/
def finalize (blk : Block) (m1 m2 : ℕ → ℕ → ℚ) (M_v V : Mat)
    (V_d : Option Mat) : Except PyError Mat := do
  let C ← Mat.hcat V M_v
  let Hlin ← blk.W_o.apply C
  match V_d with
  | none => pure (Mat.drop m1 (Mat.map blk.tau Hlin))
  | some Vd => finalizeVd blk m2 (Mat.drop m1 (Mat.map blk.tau Hlin)) Vd

/-- The undirected symmetrization line shared verbatim by both variants
(line 192 and line 224): `H = (H + H[b2revb]) / 2` when the flag is set,
`H` unchanged otherwise. -/
def symStep (blk : Block) (g : BatchMolGraph) (H : Mat) : Except PyError Mat :=
  if blk.undirected then (Mat.add H (Mat.gather H g.b2revb)).map (Mat.smul (1 / 2))
  else pure H

/-- Lines 195–197 of `BondMessageBlock.forward`: the per-edge message
`M_e = H[a2b].sum(1)[b2a] - H[b2revb]`. -/
def bondMessage (g : BatchMolGraph) (H : Mat) : Except PyError Mat :=
  Mat.sub (Mat.gather (Mat.gatherSum H g.a2b) g.b2a) (Mat.gather H g.b2revb)

/-- One iteration of the `BondMessageBlock.forward` loop, with `m` the
dropout mask of this round's dropout invocation. -/
def bondRound (blk : Block) (g : BatchMolGraph) (H0 : Mat) (m : ℕ → ℕ → ℚ)
    (H : Mat) : Except PyError Mat := do
  let Hs ← symStep blk g H
  let Me ← bondMessage g Hs
  let Hw ← blk.W_h.apply Me
  let Hu ← Mat.add H0 Hw
  pure (Mat.drop m (Mat.map blk.tau Hu))

/-- The `for _ in range(1, self.depth)` loop of `BondMessageBlock.forward`:
`t` rounds remain and `i` numbers the next dropout invocation. -/
def bondLoop (blk : Block) (g : BatchMolGraph) (H0 : Mat)
    (masks : ℕ → ℕ → ℕ → ℚ) : ℕ → ℕ → Mat → Except PyError Mat
  | _, 0, H => pure H
  | i, t + 1, H => do
    let Hn ← bondRound blk g H0 (masks i) H
    bondLoop blk g H0 masks (i + 1) t Hn

/-- `BondMessageBlock.forward(bmg, V_d)`: initialize `H_0 = W_i(E)` and
`H_e = tau(H_0)`, run `max(depth - 1, 0)` rounds, aggregate
`M_v = H_e[a2b].sum(1)`, and finalize. -/
def bondForward (blk : Block) (g : BatchMolGraph) (V_d : Option Mat)
    (masks : ℕ → ℕ → ℕ → ℚ) : Except PyError Mat := do
  let H0 ← blk.W_i.apply g.E
  let He ← bondLoop blk g H0 masks 0 (blk.depth - 1).toNat (Mat.map blk.tau H0)
  finalize blk (masks (blk.depth - 1).toNat) (masks ((blk.depth - 1).toNat + 1))
    (Mat.gatherSum He g.a2b) g.V V_d

/-- One iteration of the `AtomMessageBlock.forward` loop.  Note that the
undirected branch gathers the atom-indexed state `H_v` through the
edge-indexed map `b2revb`, exactly as the source does. -/
def atomRound (blk : Block) (g : BatchMolGraph) (H0 : Mat) (m : ℕ → ℕ → ℚ)
    (H : Mat) : Except PyError Mat := do
  let Hs ← symStep blk g H
  let Mv ← Mat.gatherCatSum Hs g.E g.a2a g.a2b
  let Hw ← blk.W_h.apply Mv
  let Hu ← Mat.add H0 Hw
  pure (Mat.drop m (Mat.map blk.tau Hu))

/-- The `for _ in range(1, self.depth)` loop of `AtomMessageBlock.forward`. -/
def atomLoop (blk : Block) (g : BatchMolGraph) (H0 : Mat)
    (masks : ℕ → ℕ → ℕ → ℚ) : ℕ → ℕ → Mat → Except PyError Mat
  | _, 0, H => pure H
  | i, t + 1, H => do
    let Hn ← atomRound blk g H0 (masks i) H
    atomLoop blk g H0 masks (i + 1) t Hn

/-- `AtomMessageBlock.forward(bmg, V_d)`: initialize `H_0 = W_i(V)` and
`H_v = tau(H_0)`, run `max(depth - 1, 0)` rounds, aggregate
`M_v = H_v[a2a].sum(1)`, and finalize. -/
def atomForward (blk : Block) (g : BatchMolGraph) (V_d : Option Mat)
    (masks : ℕ → ℕ → ℕ → ℚ) : Except PyError Mat := do
  let H0 ← blk.W_i.apply g.V
  let Hv ← atomLoop blk g H0 masks 0 (blk.depth - 1).toNat (Mat.map blk.tau H0)
  finalize blk (masks (blk.depth - 1).toNat) (masks ((blk.depth - 1).toNat + 1))
    (Mat.gatherSum Hv g.a2a) g.V V_d

/-- The rectified linear unit, the default activation selector. -/
def relu (x : ℚ) : ℚ :=
  max 0 x

/-- Observation helper: the shape of a successful result. -/
def resultShape (r : Except PyError Mat) : Except PyError (ℕ × ℕ) :=
  r.map fun M => (M.rows, M.cols)

/-- Observation helper: one entry of a successful result. -/
def resultEntry (i j : ℕ) (r : Except PyError Mat) : Except PyError ℚ :=
  r.map fun M => M.entry i j

/-- Observation helper: the error of a failed result, if any. -/
def resultErr (r : Except PyError Mat) : Option PyError :=
  match r with
  | Except.ok _ => none
  | Except.error e => some e

/-- Observation helper: whether the call completed without raising. -/
def resultOk (r : Except PyError Mat) : Bool :=
  match r with
  | Except.ok _ => true
  | Except.error _ => false

instance {ε α : Type} [DecidableEq ε] [DecidableEq α] : DecidableEq (Except ε α) := fun a b =>
  match a, b with
  | Except.ok x, Except.ok y => decidable_of_iff (x = y) (by simp)
  | Except.error x, Except.error y => decidable_of_iff (x = y) (by simp)
  | Except.ok _, Except.error _ => isFalse (by simp)
  | Except.error _, Except.ok _ => isFalse (by simp)

/-! ### Concrete instances used by counterexamples and witnesses -/

/-- Learned parameters with every weight 1 and every bias 0. -/
def pOne : LinParams :=
  ⟨fun _ _ => 1, fun _ => 0⟩

/-- Learned parameters with every weight 1 and every bias 1. -/
def pBias1 : LinParams :=
  ⟨fun _ _ => 1, fun _ => 1⟩

/-- Learned parameters with every weight -1 and every bias 0. -/
def pNeg : LinParams :=
  ⟨fun _ _ => -1, fun _ => 0⟩

/-- Evaluation-mode dropout: every mask of every invocation is identically 1. -/
def oneMask : ℕ → ℕ → ℕ → ℚ :=
  fun _ _ _ => 1

/-- An all-ones dropout mask for a single invocation. -/
def oneM : ℕ → ℕ → ℚ :=
  fun _ _ => 1

/-- Batch of one molecule with 2 atoms and 1 bond (`d_v = 2`, `d_e = 1`):
atoms 1 and 2, directed edges 1 : (1→2) and 2 : (2→1), mutually reverse;
row 0 of every array is the sentinel. -/
def g2 : BatchMolGraph where
  V := ⟨3, 2, fun i _ => if i = 0 then 0 else 1⟩
  E := ⟨3, 1, fun i _ => if i = 0 then 0 else 1⟩
  a2b := ⟨3, 1, fun v _ => if v = 1 then 2 else if v = 2 then 1 else 0⟩
  b2a := ⟨3, fun e => if e = 1 then 1 else if e = 2 then 2 else 0⟩
  b2revb := ⟨3, fun e => if e = 1 then 2 else if e = 2 then 1 else 0⟩
  a2a := ⟨3, 1, fun v _ => if v = 1 then 2 else if v = 2 then 1 else 0⟩
  nMols := 1

/-- Batch of one molecule with 3 atoms on a path and 2 bonds (`d_v = 1`,
`d_e = 1`): atoms 1-2-3, directed edges 1 : (1→2), 2 : (2→1), 3 : (2→3),
4 : (3→2); `V` has 4 rows while `E`, `b2a` and `b2revb` have 5 rows; atom 1's
incoming-edge list `[2, 0]` is padded with the sentinel. -/
def g3 : BatchMolGraph where
  V := ⟨4, 1, fun i _ => if i = 0 then 0 else 1⟩
  E := ⟨5, 1, fun _ _ => 0⟩
  a2b := ⟨4, 2, fun v k =>
    if v = 1 then (if k = 0 then 2 else 0)
    else if v = 2 then (if k = 0 then 1 else 4)
    else if v = 3 then (if k = 0 then 3 else 0) else 0⟩
  b2a := ⟨5, fun e =>
    if e = 1 then 1 else if e = 2 then 2 else if e = 3 then 2
    else if e = 4 then 3 else 0⟩
  b2revb := ⟨5, fun e =>
    if e = 1 then 2 else if e = 2 then 1 else if e = 3 then 4
    else if e = 4 then 3 else 0⟩
  a2a := ⟨4, 2, fun v k =>
    if v = 1 then (if k = 0 then 2 else 0)
    else if v = 2 then (if k = 0 then 1 else 3)
    else if v = 3 then (if k = 0 then 2 else 0) else 0⟩
  nMols := 1

/-- The 2-atom batch with a non-involutive `b2revb`:
`b2revb[b2revb[1]] = b2revb[2] = 0 ≠ 1`. -/
def g4 : BatchMolGraph :=
  { g2 with b2revb := ⟨3, fun e => if e = 1 then 2 else 0⟩ }

/-- An empty batch (`d_v = 2`, `d_e = 1`): only the sentinel rows, no atoms,
no bonds, no molecules. -/
def gEmpty : BatchMolGraph where
  V := ⟨1, 2, fun _ _ => 0⟩
  E := ⟨1, 1, fun _ _ => 0⟩
  a2b := ⟨1, 0, fun _ _ => 0⟩
  b2a := ⟨1, fun _ => 0⟩
  b2revb := ⟨1, fun _ => 0⟩
  a2a := ⟨1, 0, fun _ _ => 0⟩
  nMols := 0

/-- A `BondMessageBlock(d_v=2, d_e=1, d_h=1, bias=False, depth=1)`. -/
def cBondD1 : Block :=
  mkBondBlock 2 1 1 false 1 false relu none pOne pOne pOne pOne

/-- A `BondMessageBlock(d_v=2, d_e=1, d_h=1, bias=False, depth=0)`. -/
def cBondD0 : Block :=
  mkBondBlock 2 1 1 false 0 false relu none pOne pOne pOne pOne

/-- A `BondMessageBlock(d_v=1, d_e=1, d_h=1, bias=True, depth=1)`: with the
bias flag set, `W_i` maps the all-zero sentinel edge row to its bias 1. -/
def cBondBias : Block :=
  mkBondBlock 1 1 1 true 1 false relu none pBias1 pBias1 pBias1 pBias1

/-- An `AtomMessageBlock(d_v=1, d_e=1, d_h=1, bias=False, depth=2,
undirected=True)`. -/
def cAtomU : Block :=
  mkAtomBlock 1 1 1 false 2 true relu none pOne pOne pOne pOne

/-- The same `AtomMessageBlock` configuration with `undirected=False`. -/
def cAtomD : Block :=
  mkAtomBlock 1 1 1 false 2 false relu none pOne pOne pOne pOne

/-- An `AtomMessageBlock(d_v=2, d_e=1, d_h=1, bias=False, depth=1)`. -/
def cAtomD1 : Block :=
  mkAtomBlock 2 1 1 false 1 false relu none pOne pOne pOne pOne

/-- A `BondMessageBlock(d_v=1, d_e=1, d_h=1, bias=False, depth=1, d_vd=1)`
whose descriptor projection `W_vd` has all weights -1 and bias 0. -/
def cBlkVd : Block :=
  mkBondBlock 1 1 1 false 1 false relu (some 1) pOne pOne pOne pNeg

/-- A per-edge hidden state over `g3` with pairwise distinct rows:
row `e` is the constant `10 * e`. -/
def cH3 : Mat :=
  ⟨5, 1, fun e _ => 10 * e⟩

/-- Vertex feature matrix of a batch of one 1-atom molecule, `d_v = 1`. -/
def cV1 : Mat :=
  ⟨2, 1, fun _ _ => 0⟩

/-- An aggregated message matrix over `cV1`'s rows, `d_h = 1`. -/
def cM1 : Mat :=
  ⟨2, 1, fun _ _ => 0⟩

/-- A vertex descriptor matrix over `cV1`'s rows, `d_vd = 1`. -/
def cVd1 : Mat :=
  ⟨2, 1, fun _ _ => 1⟩

/-- The descriptor-fusion step of `finalize` as claim C2 — and the docstring
of `finalize` itself (lines 114-116) — state it: the activation applied to
the descriptor projection's output before dropout,
`H = dropout(tau(W_vd(cat(H, V_d))))`.  This definition follows the spec's
words, for comparison with `finalize`, which is translated from the code. -/
def finalizeClaimed (blk : Block) (m1 m2 : ℕ → ℕ → ℚ) (M_v V : Mat)
    (V_d : Option Mat) : Except PyError Mat := do
  let C ← Mat.hcat V M_v
  let Hlin ← blk.W_o.apply C
  let H1 := Mat.drop m1 (Mat.map blk.tau Hlin)
  match V_d with
  | none => pure H1
  | some Vd =>
    match blk.W_vd, blk.dVd with
    | some Wvd, some dvd =>
      match (do
        let Hvd ← Mat.hcat H1 Vd
        let H2 ← Wvd.apply Hvd
        pure (Mat.drop m2 (Mat.map blk.tau H2)) : Except PyError Mat) with
      | Except.ok H2 => pure H2
      | Except.error _ =>
        Except.error (PyError.invalidShape ("V_d") (Vd.rows, Vd.cols) (H1.rows, dvd))
    | _, _ => Except.error PyError.attributeError

/-- The per-edge message as claim C3 states it: for each directed edge `e`,
sum the hidden states of the incident edges (listed in `a2b`) of `e`'s
DESTINATION atom — which is the origin of its reverse edge,
`b2a[b2revb[e]]` — then subtract the reverse edge's state.  This definition
follows the claim's words, for comparison with `bondMessage`, which is
translated from the code. -/
def bondMessageClaimed (g : BatchMolGraph) (H : Mat) : Mat :=
  ⟨g.b2revb.len, H.cols, fun e j =>
    (Mat.gatherSum H g.a2b).entry (g.b2a.idx (g.b2revb.idx e)) j
    - H.entry (g.b2revb.idx e) j⟩

/-! ### Claim theorems -/

/-- C6: in the bond-centered variant, for a batch containing a single
2-atom, 1-bond molecule (two directed edges that are mutually reverse), the
per-edge message of an update round (lines 195-197,
`H[a2b].sum(1)[b2a] - H[b2revb]`) is identically zero, whatever the
current per-edge hidden state `H` is: the only edge incident to an edge's
origin atom is its own reverse, and the subtraction removes exactly that
term, so no contribution from `H[reverse(e)]` remains. -/
theorem claim_C6_reverse_subtraction (d_h : ℕ) (f : ℕ → ℕ → ℚ) :
    bondMessage g2 ⟨3, d_h, f⟩ = Except.ok ⟨3, d_h, fun _ _ => 0⟩ := by
  unfold bondMessage Mat.sub Mat.gather Mat.gatherSum g2
  simp only [Finset.sum_range_one]
  norm_num
  funext e j
  rcases e with _ | _ | _ | e
  · norm_num
  · norm_num
  · norm_num
  · have h2 : e + 1 + 1 + 1 ≠ 2 := by omega
    simp [h2]

/-- Witness for C6 at a concrete hidden state. -/
theorem claim_C6_reverse_subtraction_witness :
    bondMessage g2 ⟨3, 1, fun _ _ => 5⟩ = Except.ok ⟨3, 1, fun _ _ => 0⟩ :=
  claim_C6_reverse_subtraction 1 (fun _ _ => 5)

/-- C8: the undirected branch of `AtomMessageBlock.forward` gathers the
atom-indexed hidden state through the edge-indexed reverse map `b2revb`
(line 224, copied from the bond variant) instead of any atom-adjacency
mapping.  On a batch of one 3-atom path (4 rows of atom state, 5 directed
edge slots) the resulting elementwise addition of a 4-row and a 5-row
tensor raises a shape `RuntimeError`; the identical block with
`undirected=False` encodes the same batch without error. -/
theorem claim_C8_atom_undirected_crash :
    resultErr (atomForward cAtomU g3 none oneMask) = some PyError.runtimeError
    ∧ resultOk (atomForward cAtomD g3 none oneMask) = true := by
  decide

/-- C4 is false as stated: nothing is validated.  Construction with
`depth = 0` succeeds and `encode` then completes without error — also on a
batch whose `b2revb` is not involutive (`b2revb[b2revb[1]] = 0 ≠ 1`) and on
an empty batch. -/
theorem claim_C4_counterexample :
    cBondD0.depth = 0
    ∧ resultOk (bondForward cBondD0 g4 none oneMask) = true
    ∧ g4.b2revb.idx (g4.b2revb.idx 1) ≠ 1
    ∧ gEmpty.nMols = 0
    ∧ resultOk (bondForward cBondD0 gEmpty none oneMask) = true := by
  decide

/-- C1 is false as stated: encoding the batch `g2` of one molecule with a
depth-1 bond block (`d_v = 2`, `d_h = 1`, no descriptor) returns a matrix of
shape `3 × 1` — one row per atom slot (`num_atoms + 1`), of width
`d_h = 1` — not the claimed `batch_size × (d_h + d_v) = 1 × 3`. -/
theorem claim_C1_counterexample :
    resultShape (bondForward cBondD1 g2 none oneMask) = Except.ok (3, 1)
    ∧ g2.nMols = 1
    ∧ ¬((3, 1) = (g2.nMols, 1 + 2)) := by
  decide

/-- Helper: binding an `Except.ok` just applies the continuation. -/
theorem ok_bind {α β : Type} (a : α) (f : α → Except PyError β) :
    (Except.ok a >>= f : Except PyError β) = f a :=
  rfl

/-- C2 is the code's own documentation, and the code contradicts it: with
`W_vd` weights -1, bias 0, and relu activation, the code's `finalize`
returns -1 at entry (1,0) — the raw dropout-scaled projection output —
while the documented formula `dropout(tau(W_vd(cat(H, V_d))))` yields
`relu(-1) = 0`.  No activation is applied between `W_vd` and dropout. -/
theorem claim_C2_no_activation :
    resultEntry 1 0 (finalize cBlkVd oneM oneM cM1 cV1 (some cVd1)) = Except.ok (-1)
    ∧ resultEntry 1 0 (finalizeClaimed cBlkVd oneM oneM cM1 cV1 (some cVd1)) = Except.ok 0 := by
  constructor
  · norm_num [finalize, finalizeVd, cBlkVd, mkBondBlock, mkBlockWith, bondWeightMatrices, mkLinear,
      pOne, pNeg, oneM, cM1, cV1, cVd1, resultEntry, Except.map, ok_bind,
      pure, Except.pure, Mat.hcat, Mat.drop, Mat.map, Linear.apply, Mat.gatherSum, relu,
      Finset.sum_range_succ]
  · norm_num [finalizeClaimed, cBlkVd, mkBondBlock, mkBlockWith, bondWeightMatrices, mkLinear,
      pOne, pNeg, oneM, cM1, cV1, cVd1, resultEntry, Except.map, ok_bind,
      pure, Except.pure, Mat.hcat, Mat.drop, Mat.map, Linear.apply, Mat.gatherSum, relu,
      Finset.sum_range_succ]

/-- C3 is false as stated: over the 3-atom path `g3` with the hidden state
`cH3` (row `e` constant `10e`), the code's message at edge 1 — summed at the
ORIGIN atom `b2a[1] = 1` — is 0, while summing at the destination atom
`b2a[b2revb[1]] = 2` as the claim states gives 30. -/
theorem claim_C3_counterexample :
    resultEntry 1 0 (bondMessage g3 cH3) = Except.ok 0
    ∧ (bondMessageClaimed g3 cH3).entry 1 0 = 30 := by
  constructor
  · norm_num [bondMessage, Mat.sub, Mat.gather, Mat.gatherSum, g3, cH3,
      resultEntry, Except.map, Finset.sum_range_succ]
  · norm_num [bondMessageClaimed, Mat.gatherSum, g3, cH3, Finset.sum_range_succ]

/-- Helper: inversion of a successful bind. -/
theorem bind_ok_inv {α β : Type} {x : Except PyError α} {f : α → Except PyError β} {b : β}
    (h : (x >>= f) = Except.ok b) : ∃ a, x = Except.ok a ∧ f a = Except.ok b := by
  cases x with
  | ok a => exact ⟨a, rfl, h⟩
  | error e => exact absurd h (by simp [Bind.bind, Except.bind])

/-- Helper: a call reported successful returns some matrix. -/
theorem resultOk_exists {r : Except PyError Mat} (h : resultOk r = true) :
    ∃ M, r = Except.ok M := by
  cases r with
  | ok M => exact ⟨M, rfl⟩
  | error e => simp [resultOk] at h

/-- Helper: inversion of a successful row concatenation. -/
theorem hcat_ok_inv {A B M : Mat} (h : Mat.hcat A B = Except.ok M) :
    A.rows = B.rows ∧ M.rows = A.rows ∧ M.cols = A.cols + B.cols := by
  unfold Mat.hcat at h
  split at h
  · exact ⟨by assumption, by cases h; exact ⟨rfl, rfl⟩⟩
  · cases h

/-- Helper: inversion of a successful linear-layer application. -/
theorem apply_ok_inv {L : Linear} {A M : Mat} (h : L.apply A = Except.ok M) :
    A.cols = L.inF ∧ M.rows = A.rows ∧ M.cols = L.outF := by
  unfold Linear.apply at h
  split at h
  · exact ⟨by assumption, by cases h; exact ⟨rfl, rfl⟩⟩
  · cases h

/-- Helper: a successful descriptor branch went through `W_vd`, keeping
`H1`'s row count and ending with `W_vd.out_features` columns. -/
theorem finalizeVd_ok_dims {blk : Block} {m2 : ℕ → ℕ → ℚ} {H1 Vd H : Mat}
    (h : finalizeVd blk m2 H1 Vd = Except.ok H) :
    ∃ Wvd, blk.W_vd = some Wvd ∧ H.rows = H1.rows ∧ H.cols = Wvd.outF := by
  unfold finalizeVd at h
  split at h
  next Wvd dvd hW hd =>
    split at h
    next X hin =>
      cases h
      obtain ⟨Hvd, hv, hin⟩ := bind_ok_inv hin
      obtain ⟨H2, h2, hin⟩ := bind_ok_inv hin
      cases hin
      obtain ⟨hvr, hvrows, hvcols⟩ := hcat_ok_inv hv
      obtain ⟨h2c, h2rows, h2cols⟩ := apply_ok_inv h2
      exact ⟨Wvd, hW, by simp [Mat.drop, h2rows, hvrows], by simp [Mat.drop, h2cols]⟩
    next e hin => cases h
  next hne => cases h

/-- Helper: a successful `finalize` has one row per row of `V` and width
`W_o.out_features` without a descriptor and `W_vd.out_features` with one. -/
theorem finalize_ok_dims {blk : Block} {m1 m2 : ℕ → ℕ → ℚ} {M_v V : Mat}
    {V_d : Option Mat} {H : Mat} (h : finalize blk m1 m2 M_v V V_d = Except.ok H) :
    H.rows = V.rows ∧
      (V_d = none → H.cols = blk.W_o.outF) ∧
      (∀ Vd Wvd, V_d = some Vd → blk.W_vd = some Wvd → H.cols = Wvd.outF) := by
  unfold finalize at h
  obtain ⟨C, hC, h⟩ := bind_ok_inv h
  obtain ⟨Hlin, hL, h⟩ := bind_ok_inv h
  obtain ⟨hCr, hCrows, hCcols⟩ := hcat_ok_inv hC
  obtain ⟨hLc, hLrows, hLcols⟩ := apply_ok_inv hL
  cases V_d with
  | none =>
    cases h
    refine ⟨?_, fun _ => ?_, fun Vd Wvd hVd _ => by cases hVd⟩
    · simp [Mat.drop, Mat.map, hLrows, hCrows]
    · simp [Mat.drop, Mat.map, hLcols]
  | some Vd =>
    obtain ⟨Wvd, hW, hrows, hcols⟩ := finalizeVd_ok_dims h
    refine ⟨?_, ?_, ?_⟩
    · simp only [Mat.drop, Mat.map] at hrows
      rw [hrows, hLrows, hCrows]
    · intro hn
      cases hn
    · intro Vd2 Wvd2 hVd2 hW2
      rw [hW] at hW2
      cases hW2
      exact hcols

/-- C1 amended: for both variants, `encode` returns one row per vertex slot
of the batch (`num_atoms + 1`, including the sentinel row — per-molecule
aggregation happens outside this module), and the per-row width is `d_h`
when no vertex descriptor is supplied and `d_h + d_vd` when one is fused;
`d_v` is not part of the output width. -/
theorem claim_C1_amended (d_v d_e d_h dvd : ℕ) (bias : Bool) (depth : ℤ) (und : Bool)
    (tau : ℚ → ℚ) (pI pH pO pVd : LinParams) (g : BatchMolGraph) (V_d : Option Mat)
    (masks : ℕ → ℕ → ℕ → ℚ) (H H2 : Mat) :
    (bondForward (mkBondBlock d_v d_e d_h bias depth und tau (some dvd) pI pH pO pVd)
        g V_d masks = Except.ok H →
      H.rows = g.V.rows ∧ H.cols = d_h + (match V_d with | none => 0 | some _ => dvd))
    ∧ (atomForward (mkAtomBlock d_v d_e d_h bias depth und tau (some dvd) pI pH pO pVd)
        g V_d masks = Except.ok H2 →
      H2.rows = g.V.rows ∧ H2.cols = d_h + (match V_d with | none => 0 | some _ => dvd)) := by
  constructor
  · intro h
    unfold bondForward at h
    obtain ⟨H0, _, h⟩ := bind_ok_inv h
    obtain ⟨He, _, h⟩ := bind_ok_inv h
    obtain ⟨hrows, hnone, hsome⟩ := finalize_ok_dims h
    refine ⟨hrows, ?_⟩
    cases V_d with
    | none => simpa [mkBondBlock, mkBlockWith, bondWeightMatrices, mkLinear] using hnone rfl
    | some Vd =>
      simpa [mkBondBlock, mkBlockWith, mkLinear] using
        hsome Vd (mkLinear (d_h + dvd) (d_h + dvd) true pVd) rfl
          (by simp [mkBondBlock, mkBlockWith, mkLinear])
  · intro h
    unfold atomForward at h
    obtain ⟨H0, _, h⟩ := bind_ok_inv h
    obtain ⟨Hv, _, h⟩ := bind_ok_inv h
    obtain ⟨hrows, hnone, hsome⟩ := finalize_ok_dims h
    refine ⟨hrows, ?_⟩
    cases V_d with
    | none => simpa [mkAtomBlock, mkBlockWith, atomWeightMatrices, mkLinear] using hnone rfl
    | some Vd =>
      simpa [mkAtomBlock, mkBlockWith, mkLinear] using
        hsome Vd (mkLinear (d_h + dvd) (d_h + dvd) true pVd) rfl
          (by simp [mkAtomBlock, mkBlockWith, mkLinear])

/-- Helper: binding an `Except.error` short-circuits. -/
theorem err_bind {α β : Type} (e : PyError) (f : α → Except PyError β) :
    (Except.error e >>= f : Except PyError β) = Except.error e :=
  rfl

/-- Helper: explicit result of a row concatenation with matching rows. -/
theorem hcat_eq {A B : Mat} (h : A.rows = B.rows) :
    Mat.hcat A B = Except.ok ⟨A.rows, A.cols + B.cols, fun i j =>
      if j < A.cols then A.entry i j else B.entry i (j - A.cols)⟩ := by
  simp [Mat.hcat, h]

/-- Helper: explicit result of a linear layer on an input of matching width. -/
theorem apply_eq {L : Linear} {A : Mat} (h : A.cols = L.inF) :
    L.apply A = Except.ok ⟨A.rows, L.outF, fun i o =>
      (Finset.sum (Finset.range L.inF) fun k => L.weight o k * A.entry i k) + L.bias o⟩ := by
  simp [Linear.apply, h]

/-- Helper: a linear layer on an input of the wrong width raises. -/
theorem apply_err {L : Linear} {A : Mat} (h : ¬A.cols = L.inF) :
    L.apply A = Except.error PyError.runtimeError := by
  simp [Linear.apply, h]

/-- Helper: with depth at most 1, `BondMessageBlock.forward` runs zero update
rounds: it is `finalize` applied to the `a2b`-aggregation of `tau(W_i(E))`. -/
theorem bondForward_no_rounds {blk : Block} {g : BatchMolGraph} {V_d : Option Mat}
    {masks : ℕ → ℕ → ℕ → ℚ} (hd : blk.depth ≤ 1) :
    bondForward blk g V_d masks
      = blk.W_i.apply g.E >>= fun H0 =>
          finalize blk (masks 0) (masks 1)
            (Mat.gatherSum (Mat.map blk.tau H0) g.a2b) g.V V_d := by
  unfold bondForward
  have hr : (blk.depth - 1).toNat = 0 := by omega
  rw [hr]
  rfl

/-- Helper: with depth at most 1, `AtomMessageBlock.forward` runs zero update
rounds: it is `finalize` applied to the `a2a`-aggregation of `tau(W_i(V))`. -/
theorem atomForward_no_rounds {blk : Block} {g : BatchMolGraph} {V_d : Option Mat}
    {masks : ℕ → ℕ → ℕ → ℚ} (hd : blk.depth ≤ 1) :
    atomForward blk g V_d masks
      = blk.W_i.apply g.V >>= fun H0 =>
          finalize blk (masks 0) (masks 1)
            (Mat.gatherSum (Mat.map blk.tau H0) g.a2a) g.V V_d := by
  unfold atomForward
  have hr : (blk.depth - 1).toNat = 0 := by omega
  rw [hr]
  rfl

/-- Helper: `finalize` without a descriptor succeeds whenever the aggregated
message is row-aligned with `V` and the concatenated width matches `W_o`. -/
theorem finalize_none_ok {blk : Block} {m1 m2 : ℕ → ℕ → ℚ} {M_v V : Mat}
    (h1 : V.rows = M_v.rows) (h2 : V.cols + M_v.cols = blk.W_o.inF) :
    resultOk (finalize blk m1 m2 M_v V none) = true := by
  unfold finalize
  rw [hcat_eq h1, ok_bind, apply_eq h2, ok_bind]
  rfl

/-- Witness for C1 amended: on the 3-atom path `g3` (4 vertex slots), the
depth-1 bond block configured with `d_h = 1`, `d_vd = 1` and no supplied
descriptor returns a `4 × 1` matrix. -/
theorem claim_C1_amended_witness :
    resultShape (bondForward cBlkVd g3 none oneMask) = Except.ok (4, 1) := by
  obtain ⟨H, hH⟩ := resultOk_exists (r := bondForward cBlkVd g3 none oneMask) (by decide)
  obtain ⟨hr, hc⟩ :=
    (claim_C1_amended 1 1 1 1 false 1 false relu pOne pOne pOne pNeg g3 none oneMask H H).1 hH
  rw [hH]
  simp only [resultShape, Except.map]
  rw [hr, hc]
  rfl

/-- C3 amended: in each update round of the bond-centered variant, the
per-edge message for a directed edge `e` is formed by summing the hidden
states of the incident edges (listed in `a2b`) of `e`'s ORIGIN atom
`b2a[e]`, then subtracting the reverse edge's state `H[b2revb[e]]`. -/
theorem claim_C3_amended (g : BatchMolGraph) (H : Mat)
    (hlen : g.b2a.len = g.b2revb.len) :
    ∃ M, bondMessage g H = Except.ok M ∧ M.rows = g.b2a.len ∧ M.cols = H.cols ∧
      ∀ e j, M.entry e j =
        (Finset.sum (Finset.range g.a2b.width) fun k =>
          H.entry (g.a2b.idx (g.b2a.idx e) k) j)
        - H.entry (g.b2revb.idx e) j := by
  refine ⟨⟨g.b2a.len, H.cols, fun e j =>
    (Finset.sum (Finset.range g.a2b.width) fun k =>
      H.entry (g.a2b.idx (g.b2a.idx e) k) j)
    - H.entry (g.b2revb.idx e) j⟩, ?_, rfl, rfl, fun e j => rfl⟩
  unfold bondMessage Mat.sub Mat.gather Mat.gatherSum
  simp [hlen]

/-- Witness for C3 amended on the 2-atom batch `g2` with the state `cH3`. -/
theorem claim_C3_amended_witness :
    ∃ M, bondMessage g2 cH3 = Except.ok M ∧ M.rows = g2.b2a.len ∧ M.cols = cH3.cols ∧
      ∀ e j, M.entry e j =
        (Finset.sum (Finset.range g2.a2b.width) fun k =>
          cH3.entry (g2.a2b.idx (g2.b2a.idx e) k) j)
        - cH3.entry (g2.b2revb.idx e) j :=
  claim_C3_amended g2 cH3 rfl

/-- C4 amended: neither construction nor `encode` validates anything.  Any
depth is accepted; with `depth < 1` the update loop runs zero times, and
`encode` completes without error on any batch whose feature widths match the
configuration and whose neighbor lists are row-aligned with `V` — including
an empty batch and a batch whose `b2revb` is arbitrary (not involutive). -/
theorem claim_C4_amended (d_v d_e d_h : ℕ) (bias : Bool) (depth : ℤ) (und : Bool)
    (tau : ℚ → ℚ) (pI pH pO pVd : LinParams) (g : BatchMolGraph)
    (masks : ℕ → ℕ → ℕ → ℚ) (hd : depth < 1)
    (hE : g.E.cols = d_e) (hV : g.V.cols = d_v)
    (hab : g.a2b.rows = g.V.rows) (haa : g.a2a.rows = g.V.rows) :
    resultOk (bondForward (mkBondBlock d_v d_e d_h bias depth und tau none pI pH pO pVd)
        g none masks) = true
    ∧ resultOk (atomForward (mkAtomBlock d_v d_e d_h bias depth und tau none pI pH pO pVd)
        g none masks) = true := by
  constructor
  · rw [bondForward_no_rounds (by show depth ≤ 1; omega)]
    rw [apply_eq (A := g.E)
      (by simp [mkBondBlock, mkBlockWith, bondWeightMatrices, mkLinear, hE]), ok_bind]
    exact finalize_none_ok (by simp [Mat.gatherSum]; exact hab.symm)
      (by simp [Mat.gatherSum, Mat.map, mkBondBlock, mkBlockWith, bondWeightMatrices,
        mkLinear, hV])
  · rw [atomForward_no_rounds (by show depth ≤ 1; omega)]
    rw [apply_eq (A := g.V)
      (by simp [mkAtomBlock, mkBlockWith, atomWeightMatrices, mkLinear, hV]), ok_bind]
    exact finalize_none_ok (by simp [Mat.gatherSum]; exact haa.symm)
      (by simp [Mat.gatherSum, Mat.map, mkAtomBlock, mkBlockWith, atomWeightMatrices,
        mkLinear, hV])

/-- Witness for C4 amended: depth 0, the non-involutive batch `g4`. -/
theorem claim_C4_amended_witness :
    resultOk (bondForward (mkBondBlock 2 1 1 false 0 false relu none pOne pOne pOne pOne)
        g4 none oneMask) = true
    ∧ resultOk (atomForward (mkAtomBlock 2 1 1 false 0 false relu none pOne pOne pOne pOne)
        g4 none oneMask) = true :=
  claim_C4_amended 2 1 1 false 0 false relu pOne pOne pOne pOne g4 oneMask
    (by decide) rfl rfl rfl rfl

/-- C5: with `depth = 1` both variants run zero recurrent update rounds
(`range(1, 1)` is empty): the output is `finalize` applied to the
aggregation of the initial embedding `tau(inputProj(·))` alone, confirming
the loop runs `depth - 1` times, not `depth` times. -/
theorem claim_C5_depth_one (blkB blkA : Block) (g : BatchMolGraph) (V_d : Option Mat)
    (masks : ℕ → ℕ → ℕ → ℚ) (hB : blkB.depth = 1) (hA : blkA.depth = 1) :
    bondForward blkB g V_d masks
      = blkB.W_i.apply g.E >>= (fun H0 =>
          finalize blkB (masks 0) (masks 1)
            (Mat.gatherSum (Mat.map blkB.tau H0) g.a2b) g.V V_d)
    ∧ atomForward blkA g V_d masks
      = blkA.W_i.apply g.V >>= (fun H0 =>
          finalize blkA (masks 0) (masks 1)
            (Mat.gatherSum (Mat.map blkA.tau H0) g.a2a) g.V V_d) :=
  ⟨bondForward_no_rounds (by omega), atomForward_no_rounds (by omega)⟩

/-- Witness for C5 at depth-1 blocks on the 2-atom batch. -/
theorem claim_C5_depth_one_witness :
    bondForward cBondD1 g2 none oneMask
      = cBondD1.W_i.apply g2.E >>= (fun H0 =>
          finalize cBondD1 (oneMask 0) (oneMask 1)
            (Mat.gatherSum (Mat.map cBondD1.tau H0) g2.a2b) g2.V none)
    ∧ atomForward cAtomD1 g2 none oneMask
      = cAtomD1.W_i.apply g2.V >>= (fun H0 =>
          finalize cAtomD1 (oneMask 0) (oneMask 1)
            (Mat.gatherSum (Mat.map cAtomD1.tau H0) g2.a2a) g2.V none) :=
  claim_C5_depth_one cBondD1 cAtomD1 g2 none oneMask rfl rfl

/-- Helper: a call reported successful is not an error. -/
theorem resultOk_ne_error {r : Except PyError Mat} (h : resultOk r = true) (e : PyError) :
    ¬r = Except.error e := by
  cases r with
  | ok M => intro hc; cases hc
  | error e2 => simp [resultOk] at h

/-- Helper: `finalize` with a descriptor reduces to the descriptor branch on
an explicit `H1` that is row-aligned with `V` and `W_o.out_features` wide. -/
theorem finalize_some_eq {blk : Block} {m1 m2 : ℕ → ℕ → ℚ} {M_v V : Mat} (Vd : Mat)
    (h1 : V.rows = M_v.rows) (h2 : V.cols + M_v.cols = blk.W_o.inF) :
    ∃ H1, finalize blk m1 m2 M_v V (some Vd) = finalizeVd blk m2 H1 Vd
      ∧ H1.rows = V.rows ∧ H1.cols = blk.W_o.outF := by
  refine ⟨Mat.drop m1 (Mat.map blk.tau ⟨V.rows, blk.W_o.outF, fun i o =>
      (Finset.sum (Finset.range blk.W_o.inF) fun k => blk.W_o.weight o k *
        (if k < V.cols then V.entry i k else M_v.entry i (k - V.cols))) + blk.W_o.bias o⟩),
    ?_, rfl, rfl⟩
  unfold finalize
  rw [hcat_eq h1, ok_bind, apply_eq h2, ok_bind]

/-- Helper: the descriptor branch succeeds when the concatenated width
matches `W_vd.in_features`. -/
theorem finalizeVd_eq {blk : Block} {Wvd : Linear} {dvd : ℕ} {m2 : ℕ → ℕ → ℚ}
    {H1 Vd : Mat} (hW : blk.W_vd = some Wvd) (hd : blk.dVd = some dvd)
    (hrow : H1.rows = Vd.rows) (hin : H1.cols + Vd.cols = Wvd.inF) :
    resultOk (finalizeVd blk m2 H1 Vd) = true := by
  unfold finalizeVd
  rw [hW, hd]
  simp only [hcat_eq hrow, ok_bind]
  rw [apply_eq (by simpa using hin)]
  rfl

/-- Helper: the descriptor branch raises the descriptive `InvalidShapeError`
— naming `V_d`, its actual shape, and the expected shape — exactly when the
concatenated width disagrees with `W_vd.in_features`. -/
theorem finalizeVd_err {blk : Block} {Wvd : Linear} {dvd : ℕ} {m2 : ℕ → ℕ → ℚ}
    {H1 Vd : Mat} (hW : blk.W_vd = some Wvd) (hd : blk.dVd = some dvd)
    (hrow : H1.rows = Vd.rows) (hin : ¬H1.cols + Vd.cols = Wvd.inF) :
    finalizeVd blk m2 H1 Vd
      = Except.error (PyError.invalidShape ("V_d") (Vd.rows, Vd.cols) (H1.rows, dvd)) := by
  unfold finalizeVd
  rw [hW, hd]
  simp only [hcat_eq hrow, ok_bind]
  rw [apply_err (by simpa using hin)]
  rfl

/-- C9: on a block configured with descriptor width `d_vd`, `finalize` with
a supplied, `V`-row-aligned descriptor matrix fails exactly when the
descriptor's per-row width disagrees with `d_vd`; the failure is the
descriptive `InvalidShapeError` naming the parameter `V_d` and reporting the
actual shape and the expected shape, not a generic numeric error; with
matching width, or with no descriptor supplied, no error is raised.
(`finalize` is shared by both variants and only reads `W_o`, `W_vd`, `dVd`
and the activation, which the two constructors assign identically.) -/
theorem claim_C9_descriptor_shape (d_v d_e d_h dvd : ℕ) (bias : Bool) (depth : ℤ)
    (und : Bool) (tau : ℚ → ℚ) (pI pH pO pVd : LinParams) (m1 m2 : ℕ → ℕ → ℚ)
    (M_v V Vd : Mat) (hM : V.rows = M_v.rows) (hMc : M_v.cols = d_h) (hV : V.cols = d_v)
    (hr : Vd.rows = V.rows) :
    (finalize (mkBondBlock d_v d_e d_h bias depth und tau (some dvd) pI pH pO pVd)
        m1 m2 M_v V (some Vd)
      = Except.error (PyError.invalidShape ("V_d") (Vd.rows, Vd.cols) (V.rows, dvd))
      ↔ ¬Vd.cols = dvd)
    ∧ (resultOk (finalize (mkBondBlock d_v d_e d_h bias depth und tau (some dvd) pI pH pO pVd)
        m1 m2 M_v V (some Vd)) = true ↔ Vd.cols = dvd)
    ∧ resultOk (finalize (mkBondBlock d_v d_e d_h bias depth und tau (some dvd) pI pH pO pVd)
        m1 m2 M_v V none) = true := by
  have hWo : V.cols + M_v.cols
      = (mkBondBlock d_v d_e d_h bias depth und tau (some dvd) pI pH pO pVd).W_o.inF := by
    simp [mkBondBlock, mkBlockWith, bondWeightMatrices, mkLinear, hV, hMc]
  have hW : (mkBondBlock d_v d_e d_h bias depth und tau (some dvd) pI pH pO pVd).W_vd
      = some (mkLinear (d_h + dvd) (d_h + dvd) true pVd) := by
    simp [mkBondBlock, mkBlockWith]
  have hdv : (mkBondBlock d_v d_e d_h bias depth und tau (some dvd) pI pH pO pVd).dVd
      = some dvd := rfl
  obtain ⟨H1, heq, h1r, h1c⟩ := finalize_some_eq Vd hM hWo
  have h1c' : H1.cols = d_h := by
    rw [h1c]; simp [mkBondBlock, mkBlockWith, bondWeightMatrices, mkLinear]
  have hrow : H1.rows = Vd.rows := by rw [h1r, hr]
  by_cases hcol : Vd.cols = dvd
  · have hok := @finalizeVd_eq _ _ _ m2 _ _ hW hdv hrow
      (by rw [h1c', hcol]; simp [mkLinear])
    refine ⟨?_, ?_, finalize_none_ok hM hWo⟩
    · rw [heq]
      exact iff_of_false (resultOk_ne_error hok _) (by simp [hcol])
    · rw [heq]
      exact iff_of_true hok hcol
  · have herr := @finalizeVd_err _ _ _ m2 _ _ hW hdv hrow
      (by rw [h1c']; simp [mkLinear]; omega)
    rw [h1r] at herr
    refine ⟨?_, ?_, finalize_none_ok hM hWo⟩
    · rw [heq]
      exact iff_of_true herr hcol
    · rw [heq]
      refine iff_of_false ?_ hcol
      rw [herr]
      simp [resultOk]

/-- Witness for C9 at a concrete configuration: `d_h = 1`, `d_vd = 1`,
a descriptor of width 2 on the 1-atom batch matrices. -/
theorem claim_C9_descriptor_shape_witness :
    (finalize (mkBondBlock 1 1 1 false 1 false relu (some 1) pOne pOne pOne pNeg)
        oneM oneM cM1 cV1 (some ⟨2, 2, fun _ _ => 1⟩)
      = Except.error (PyError.invalidShape ("V_d") ((2 : ℕ), (2 : ℕ)) (cV1.rows, 1))
      ↔ ¬(2 : ℕ) = 1)
    ∧ (resultOk (finalize (mkBondBlock 1 1 1 false 1 false relu (some 1) pOne pOne pOne pNeg)
        oneM oneM cM1 cV1 (some ⟨2, 2, fun _ _ => 1⟩)) = true ↔ (2 : ℕ) = 1)
    ∧ resultOk (finalize (mkBondBlock 1 1 1 false 1 false relu (some 1) pOne pOne pOne pNeg)
        oneM oneM cM1 cV1 none) = true :=
  claim_C9_descriptor_shape 1 1 1 1 false 1 false relu pOne pOne pOne pNeg oneM oneM
    cM1 cV1 ⟨2, 2, fun _ _ => 1⟩ rfl rfl rfl rfl

/-- C10: the public `output_dim` property returns `W_o.out_features`, which
is `d_h` for both variants, and does not include a configured descriptor
width `d_vd`; the private `__output_dim = d_h + d_vd` computed in the
constructor differs from it whenever `d_vd > 0`; yet a successful
descriptor-fused `finalize` really has `d_h + d_vd` columns. -/
theorem claim_C10_output_dim (d_v d_e d_h dvd : ℕ) (bias : Bool) (depth : ℤ) (und : Bool)
    (tau : ℚ → ℚ) (pI pH pO pVd : LinParams) (hdvd : 0 < dvd) :
    Block.output_dim (mkBondBlock d_v d_e d_h bias depth und tau (some dvd) pI pH pO pVd) = d_h
    ∧ Block.output_dim (mkAtomBlock d_v d_e d_h bias depth und tau (some dvd) pI pH pO pVd) = d_h
    ∧ (mkBondBlock d_v d_e d_h bias depth und tau (some dvd) pI pH pO pVd).outputDimPriv
        = d_h + dvd
    ∧ ¬Block.output_dim (mkBondBlock d_v d_e d_h bias depth und tau (some dvd) pI pH pO pVd)
        = (mkBondBlock d_v d_e d_h bias depth und tau (some dvd) pI pH pO pVd).outputDimPriv
    ∧ ∀ (m1 m2 : ℕ → ℕ → ℚ) (M_v V Vd H : Mat),
        finalize (mkBondBlock d_v d_e d_h bias depth und tau (some dvd) pI pH pO pVd)
          m1 m2 M_v V (some Vd) = Except.ok H → H.cols = d_h + dvd := by
  refine ⟨rfl, rfl, ?_, ?_, ?_⟩
  · simp [mkBondBlock, mkBlockWith]
  · simp [Block.output_dim, mkBondBlock, mkBlockWith, bondWeightMatrices, mkLinear]
    omega
  · intro m1 m2 M_v V Vd H h
    obtain ⟨_, _, hsome⟩ := finalize_ok_dims h
    simpa [mkBondBlock, mkBlockWith, mkLinear] using
      hsome Vd (mkLinear (d_h + dvd) (d_h + dvd) true pVd) rfl
        (by simp [mkBondBlock, mkBlockWith, mkLinear])

/-- Witness for C10 at a concrete configuration with `d_vd = 1`. -/
theorem claim_C10_output_dim_witness :
    Block.output_dim (mkBondBlock 1 1 1 false 1 false relu (some 1) pOne pOne pOne pNeg) = 1
    ∧ Block.output_dim (mkAtomBlock 1 1 1 false 1 false relu (some 1) pOne pOne pOne pNeg) = 1
    ∧ (mkBondBlock 1 1 1 false 1 false relu (some 1) pOne pOne pOne pNeg).outputDimPriv
        = 1 + 1
    ∧ ¬Block.output_dim (mkBondBlock 1 1 1 false 1 false relu (some 1) pOne pOne pOne pNeg)
        = (mkBondBlock 1 1 1 false 1 false relu (some 1) pOne pOne pOne pNeg).outputDimPriv
    ∧ ∀ (m1 m2 : ℕ → ℕ → ℚ) (M_v V Vd H : Mat),
        finalize (mkBondBlock 1 1 1 false 1 false relu (some 1) pOne pOne pOne pNeg)
          m1 m2 M_v V (some Vd) = Except.ok H → H.cols = 1 + 1 :=
  claim_C10_output_dim 1 1 1 1 false 1 false relu pOne pOne pOne pNeg (by decide)

/-- Helper: inversion of a successful map. -/
theorem map_ok_inv {α β : Type} {x : Except PyError α} {f : α → β} {b : β}
    (h : x.map f = Except.ok b) : ∃ a, x = Except.ok a ∧ b = f a := by
  cases x with
  | ok a =>
    refine ⟨a, rfl, ?_⟩
    injection h with h
    exact h.symm
  | error e => cases h

/-- Helper: entries of a successful elementwise addition. -/
theorem add_ok_entry {A B M : Mat} (h : Mat.add A B = Except.ok M) :
    ∀ i j, M.entry i j = A.entry i j + B.entry i j := by
  unfold Mat.add at h
  split at h
  · cases h; intro i j; rfl
  · cases h

/-- Helper: entries of a successful elementwise subtraction. -/
theorem sub_ok_entry {A B M : Mat} (h : Mat.sub A B = Except.ok M) :
    ∀ i j, M.entry i j = A.entry i j - B.entry i j := by
  unfold Mat.sub at h
  split at h
  · cases h; intro i j; rfl
  · cases h

/-- Helper: entries of a successful linear-layer application. -/
theorem apply_ok_entry {L : Linear} {A M : Mat} (h : L.apply A = Except.ok M) :
    ∀ i o, M.entry i o
      = (Finset.sum (Finset.range L.inF) fun k => L.weight o k * A.entry i k) + L.bias o := by
  unfold Linear.apply at h
  split at h
  · cases h; intro i o; rfl
  · cases h

/-- Helper: entries of a successful fused gather-concatenate-reduce. -/
theorem gatherCatSum_ok_entry {Hm Em : Mat} {a2a a2b : Idx2} {M : Mat}
    (h : Mat.gatherCatSum Hm Em a2a a2b = Except.ok M) :
    ∀ v j, M.entry v j = Finset.sum (Finset.range a2a.width) fun k =>
      if j < Hm.cols then Hm.entry (a2a.idx v k) j
      else Em.entry (a2b.idx v k) (j - Hm.cols) := by
  unfold Mat.gatherCatSum at h
  split at h
  · cases h; intro v j; rfl
  · cases h

/-- Helper: a sum gathered over a padded index row whose hidden state has a
zero sentinel row equals the sum over the non-sentinel slots alone. -/
theorem gatherSum_padding {H : Mat} {I : Idx2} (hH : ∀ j, H.entry 0 j = 0) (v j : ℕ) :
    (Mat.gatherSum H I).entry v j
      = Finset.sum ((Finset.range I.width).filter fun k => ¬I.idx v k = 0)
          (fun k => H.entry (I.idx v k) j) := by
  simp only [Mat.gatherSum]
  rw [← Finset.sum_filter_add_sum_filter_not (Finset.range I.width)
    (fun k => ¬I.idx v k = 0) (fun k => H.entry (I.idx v k) j)]
  have hz : Finset.sum ((Finset.range I.width).filter fun k => ¬¬I.idx v k = 0)
      (fun k => H.entry (I.idx v k) j) = 0 := by
    refine Finset.sum_eq_zero fun k hk => ?_
    rcases Finset.mem_filter.mp hk with ⟨_, hk0⟩
    rw [not_not.mp hk0]
    exact hH j
  rw [hz, add_zero]

/-- Helper: one bond-variant update round preserves a zero sentinel row when
`W_h` has no bias, the activation fixes 0, and the adjacency arrays map the
sentinel to the sentinel. -/
theorem bondRound_row0 {blk : Block} {g : BatchMolGraph} {H0 : Mat} {m : ℕ → ℕ → ℚ}
    {H H' : Mat} (htau : blk.tau 0 = 0) (hWb : ∀ o, blk.W_h.bias o = 0)
    (ha2b0 : ∀ k, g.a2b.idx 0 k = 0) (hb2a0 : g.b2a.idx 0 = 0)
    (hrev0 : g.b2revb.idx 0 = 0) (h00 : ∀ j, H0.entry 0 j = 0)
    (hH : ∀ j, H.entry 0 j = 0) (h : bondRound blk g H0 m H = Except.ok H') :
    ∀ j, H'.entry 0 j = 0 := by
  unfold bondRound at h
  obtain ⟨Hs, hHs, h⟩ := bind_ok_inv h
  have hHs0 : ∀ j, Hs.entry 0 j = 0 := by
    unfold symStep at hHs
    cases hu : blk.undirected with
    | false =>
      rw [hu] at hHs
      simp only [if_neg Bool.false_ne_true] at hHs
      cases hHs
      exact hH
    | true =>
      rw [hu] at hHs
      simp only [if_pos] at hHs
      obtain ⟨A, hA, hsA⟩ := map_ok_inv hHs
      intro j
      rw [hsA]
      simp only [Mat.smul]
      rw [add_ok_entry hA 0 j]
      simp only [Mat.gather, hrev0, hH j]
      ring
  obtain ⟨Me, hMe, h⟩ := bind_ok_inv h
  have hMe0 : ∀ j, Me.entry 0 j = 0 := by
    intro j
    unfold bondMessage at hMe
    rw [sub_ok_entry hMe 0 j]
    simp only [Mat.gather, Mat.gatherSum, hb2a0, hrev0, hHs0 j]
    rw [Finset.sum_eq_zero fun k _ => by rw [ha2b0 k]; exact hHs0 j]
    ring
  obtain ⟨Hw, hHw, h⟩ := bind_ok_inv h
  have hHw0 : ∀ o, Hw.entry 0 o = 0 := by
    intro o
    rw [apply_ok_entry hHw 0 o, hWb o]
    rw [Finset.sum_eq_zero fun k _ => by rw [hMe0 k]; ring]
    ring
  obtain ⟨Hu, hHu, h⟩ := bind_ok_inv h
  cases h
  intro j
  simp only [Mat.drop, Mat.map]
  rw [add_ok_entry hHu 0 j, h00 j, hHw0 j]
  simp [htau]

/-- Helper: the bond-variant loop preserves a zero sentinel row. -/
theorem bondLoop_row0 {blk : Block} {g : BatchMolGraph} {H0 : Mat}
    {masks : ℕ → ℕ → ℕ → ℚ} (htau : blk.tau 0 = 0) (hWb : ∀ o, blk.W_h.bias o = 0)
    (ha2b0 : ∀ k, g.a2b.idx 0 k = 0) (hb2a0 : g.b2a.idx 0 = 0)
    (hrev0 : g.b2revb.idx 0 = 0) (h00 : ∀ j, H0.entry 0 j = 0) :
    ∀ t i H He, (∀ j, H.entry 0 j = 0) →
      bondLoop blk g H0 masks i t H = Except.ok He → ∀ j, He.entry 0 j = 0 := by
  intro t
  induction t with
  | zero =>
    intro i H He hH h
    cases h
    exact hH
  | succ t ih =>
    intro i H He hH h
    unfold bondLoop at h
    obtain ⟨Hn, hn, h⟩ := bind_ok_inv h
    exact ih _ _ _ (bondRound_row0 htau hWb ha2b0 hb2a0 hrev0 h00 hH hn) h

/-- Helper: one atom-variant update round preserves a zero sentinel row. -/
theorem atomRound_row0 {blk : Block} {g : BatchMolGraph} {H0 : Mat} {m : ℕ → ℕ → ℚ}
    {H H' : Mat} (htau : blk.tau 0 = 0) (hWb : ∀ o, blk.W_h.bias o = 0)
    (hE0 : ∀ k, g.E.entry 0 k = 0) (ha2b0 : ∀ k, g.a2b.idx 0 k = 0)
    (ha2a0 : ∀ k, g.a2a.idx 0 k = 0) (hrev0 : g.b2revb.idx 0 = 0)
    (h00 : ∀ j, H0.entry 0 j = 0) (hH : ∀ j, H.entry 0 j = 0)
    (h : atomRound blk g H0 m H = Except.ok H') :
    ∀ j, H'.entry 0 j = 0 := by
  unfold atomRound at h
  obtain ⟨Hs, hHs, h⟩ := bind_ok_inv h
  have hHs0 : ∀ j, Hs.entry 0 j = 0 := by
    unfold symStep at hHs
    cases hu : blk.undirected with
    | false =>
      rw [hu] at hHs
      simp only [if_neg Bool.false_ne_true] at hHs
      cases hHs
      exact hH
    | true =>
      rw [hu] at hHs
      simp only [if_pos] at hHs
      obtain ⟨A, hA, hsA⟩ := map_ok_inv hHs
      intro j
      rw [hsA]
      simp only [Mat.smul]
      rw [add_ok_entry hA 0 j]
      simp only [Mat.gather, hrev0, hH j]
      ring
  obtain ⟨Mv, hMv, h⟩ := bind_ok_inv h
  have hMv0 : ∀ j, Mv.entry 0 j = 0 := by
    intro j
    rw [gatherCatSum_ok_entry hMv 0 j]
    refine Finset.sum_eq_zero fun k _ => ?_
    rw [ha2a0 k, ha2b0 k]
    split
    · exact hHs0 j
    · exact hE0 (j - Hs.cols)
  obtain ⟨Hw, hHw, h⟩ := bind_ok_inv h
  have hHw0 : ∀ o, Hw.entry 0 o = 0 := by
    intro o
    rw [apply_ok_entry hHw 0 o, hWb o]
    rw [Finset.sum_eq_zero fun k _ => by rw [hMv0 k]; ring]
    ring
  obtain ⟨Hu, hHu, h⟩ := bind_ok_inv h
  cases h
  intro j
  simp only [Mat.drop, Mat.map]
  rw [add_ok_entry hHu 0 j, h00 j, hHw0 j]
  simp [htau]

/-- Helper: the atom-variant loop preserves a zero sentinel row. -/
theorem atomLoop_row0 {blk : Block} {g : BatchMolGraph} {H0 : Mat}
    {masks : ℕ → ℕ → ℕ → ℚ} (htau : blk.tau 0 = 0) (hWb : ∀ o, blk.W_h.bias o = 0)
    (hE0 : ∀ k, g.E.entry 0 k = 0) (ha2b0 : ∀ k, g.a2b.idx 0 k = 0)
    (ha2a0 : ∀ k, g.a2a.idx 0 k = 0) (hrev0 : g.b2revb.idx 0 = 0)
    (h00 : ∀ j, H0.entry 0 j = 0) :
    ∀ t i H Hv, (∀ j, H.entry 0 j = 0) →
      atomLoop blk g H0 masks i t H = Except.ok Hv → ∀ j, Hv.entry 0 j = 0 := by
  intro t
  induction t with
  | zero =>
    intro i H Hv hH h
    cases h
    exact hH
  | succ t ih =>
    intro i H Hv hH h
    unfold atomLoop at h
    obtain ⟨Hn, hn, h⟩ := bind_ok_inv h
    exact ih _ _ _ (atomRound_row0 htau hWb hE0 ha2b0 ha2a0 hrev0 h00 hH hn) h

/-- C7 is false as stated: with the bias flag set (`cBondBias`,
`bias=True`), `W_i` maps the all-zero sentinel edge row to its bias, so on
`g3` (all-zero `E`) the hidden state at the final aggregation of a depth-1
encode — which is `tau(W_i(E))` — is 1 at the sentinel row (first
conjunct), and the `a2b`-aggregated message at atom 1, whose incident list
`[2, 0]` is sentinel-padded, is 2 (second conjunct) although its single real
incident edge contributes only 1 (third conjunct): the padding entries do
affect the sum. -/
theorem claim_C7_counterexample :
    resultEntry 0 0 ((cBondBias.W_i.apply g3.E).map (Mat.map cBondBias.tau)) = Except.ok 1
    ∧ resultEntry 1 0 ((cBondBias.W_i.apply g3.E).map
        (fun H0 => Mat.gatherSum (Mat.map cBondBias.tau H0) g3.a2b)) = Except.ok 2
    ∧ resultEntry 2 0 ((cBondBias.W_i.apply g3.E).map (Mat.map cBondBias.tau))
        = Except.ok 1 := by
  refine ⟨?_, ?_, ?_⟩ <;>
    norm_num [cBondBias, mkBondBlock, mkBlockWith, bondWeightMatrices, mkLinear, pBias1,
      g3, Linear.apply, Mat.map, Mat.gatherSum, relu, resultEntry, Except.map,
      Finset.sum_range_succ]

/-- C7 amended: provided the block is constructed with `bias=False` (the
default) and its activation fixes 0 (true of relu, the default), the
sentinel convention does hold: row 0 of the hidden state is all-zero after
the initial embedding and after every update round of both variants
(whatever the dropout masks), and every `a2b`/`a2a` aggregation of a
zero-sentinel state — the final aggregation in particular — is unaffected by
the sentinel-padded entries: it equals the sum over the non-sentinel slots
alone.  With `bias=True` the invariant fails (see the counterexample). -/
theorem claim_C7_sentinel_amended (d_v d_e d_h : ℕ) (depth : ℤ) (und : Bool)
    (tau : ℚ → ℚ) (d_vd : Option ℕ) (pI pH pO pVd : LinParams) (g : BatchMolGraph)
    (masks : ℕ → ℕ → ℕ → ℚ) (htau : tau 0 = 0)
    (hE0 : ∀ k, g.E.entry 0 k = 0) (hV0 : ∀ k, g.V.entry 0 k = 0)
    (ha2b0 : ∀ k, g.a2b.idx 0 k = 0) (ha2a0 : ∀ k, g.a2a.idx 0 k = 0)
    (hb2a0 : g.b2a.idx 0 = 0) (hrev0 : g.b2revb.idx 0 = 0) :
    (∀ t i H0 He,
      (mkBondBlock d_v d_e d_h false depth und tau d_vd pI pH pO pVd).W_i.apply g.E
        = Except.ok H0 →
      bondLoop (mkBondBlock d_v d_e d_h false depth und tau d_vd pI pH pO pVd) g H0 masks
        i t (Mat.map tau H0) = Except.ok He →
      ∀ j, He.entry 0 j = 0)
    ∧ (∀ t i H0 Hv,
      (mkAtomBlock d_v d_e d_h false depth und tau d_vd pI pH pO pVd).W_i.apply g.V
        = Except.ok H0 →
      atomLoop (mkAtomBlock d_v d_e d_h false depth und tau d_vd pI pH pO pVd) g H0 masks
        i t (Mat.map tau H0) = Except.ok Hv →
      ∀ j, Hv.entry 0 j = 0)
    ∧ (∀ H : Mat, (∀ j, H.entry 0 j = 0) → ∀ v j,
        (Mat.gatherSum H g.a2b).entry v j
          = Finset.sum ((Finset.range g.a2b.width).filter fun k => ¬g.a2b.idx v k = 0)
              (fun k => H.entry (g.a2b.idx v k) j)
        ∧ (Mat.gatherSum H g.a2a).entry v j
          = Finset.sum ((Finset.range g.a2a.width).filter fun k => ¬g.a2a.idx v k = 0)
              (fun k => H.entry (g.a2a.idx v k) j)) := by
  refine ⟨?_, ?_, fun H hH v j => ⟨gatherSum_padding hH v j, gatherSum_padding hH v j⟩⟩
  · intro t i H0 He h0 hloop
    have h00 : ∀ j, H0.entry 0 j = 0 := by
      intro j
      rw [apply_ok_entry h0 0 j]
      have hb : (mkBondBlock d_v d_e d_h false depth und tau d_vd pI pH pO pVd).W_i.bias j
          = 0 := rfl
      rw [hb]
      rw [Finset.sum_eq_zero fun k _ => by rw [hE0 k]; ring]
      ring
    refine bondLoop_row0 htau (fun o => rfl) ha2b0 hb2a0 hrev0 h00 t i _ He ?_ hloop
    intro j
    simp only [Mat.map]
    rw [h00 j, htau]
  · intro t i H0 Hv h0 hloop
    have h00 : ∀ j, H0.entry 0 j = 0 := by
      intro j
      rw [apply_ok_entry h0 0 j]
      have hb : (mkAtomBlock d_v d_e d_h false depth und tau d_vd pI pH pO pVd).W_i.bias j
          = 0 := rfl
      rw [hb]
      rw [Finset.sum_eq_zero fun k _ => by rw [hV0 k]; ring]
      ring
    refine atomLoop_row0 htau (fun o => rfl) hE0 ha2b0 ha2a0 hrev0 h00 t i _ Hv ?_ hloop
    intro j
    simp only [Mat.map]
    rw [h00 j, htau]

/-- Witness for C7 amended: a bias-free relu block of each variant on the
3-atom path `g3`, whose sentinel rows and index rows are all zero. -/
theorem claim_C7_sentinel_amended_witness :
    (∀ t i H0 He,
      (mkBondBlock 1 1 1 false 3 false relu none pOne pOne pOne pOne).W_i.apply g3.E
        = Except.ok H0 →
      bondLoop (mkBondBlock 1 1 1 false 3 false relu none pOne pOne pOne pOne) g3 H0 oneMask
        i t (Mat.map relu H0) = Except.ok He →
      ∀ j, He.entry 0 j = 0)
    ∧ (∀ t i H0 Hv,
      (mkAtomBlock 1 1 1 false 3 false relu none pOne pOne pOne pOne).W_i.apply g3.V
        = Except.ok H0 →
      atomLoop (mkAtomBlock 1 1 1 false 3 false relu none pOne pOne pOne pOne) g3 H0 oneMask
        i t (Mat.map relu H0) = Except.ok Hv →
      ∀ j, Hv.entry 0 j = 0)
    ∧ (∀ H : Mat, (∀ j, H.entry 0 j = 0) → ∀ v j,
        (Mat.gatherSum H g3.a2b).entry v j
          = Finset.sum ((Finset.range g3.a2b.width).filter fun k => ¬g3.a2b.idx v k = 0)
              (fun k => H.entry (g3.a2b.idx v k) j)
        ∧ (Mat.gatherSum H g3.a2a).entry v j
          = Finset.sum ((Finset.range g3.a2a.width).filter fun k => ¬g3.a2a.idx v k = 0)
              (fun k => H.entry (g3.a2a.idx v k) j)) :=
  claim_C7_sentinel_amended 1 1 1 3 false relu none pOne pOne pOne pOne g3 oneMask
    (by norm_num [relu]) (fun k => rfl) (fun k => rfl) (fun k => rfl) (fun k => rfl)
    rfl rfl

end Chemprop
